import Mathlib

/-!
Verification development for the `ruma` event-content schema compiler
(`crates/ruma-events-macros/src/event_content.rs`) and `crates/ruma-events/src/unsigned.rs`.

The derive macro is embedded shallowly: attribute token streams become lists of
`MetaToken`, `syn::DeriveInput` becomes `DeriveInput`, and the macro's expansion
becomes a total function `expand_event_content` producing either the semantic
content of the generated artifacts, a `syn::Error` (`ExpandResult.err`), or a
panic (`ExpandResult.panicked`, for the `unreachable!` arm of
`generate_static_event_content_impl`).  The runtime behavior of the generated
code (`redact`, `empty`, `event_type`, `from_parts`) is embedded as functions
over the artifact descriptions, with struct values represented as association
lists from field names to values.
-/

namespace Ruma

/-- Room version identifiers are opaque validated strings at this layer. -/
abbrev RoomVersionId := String

/-- The result of running the derive macro: success, a `syn::Error`, or a panic
(the `unreachable!` arm). -/
inductive ExpandResult (α : Type) where
  | ok (a : α)
  | err (msg : String)
  | panicked (msg : String)
deriving DecidableEq

def ExpandResult.isOk {α : Type} : ExpandResult α → Bool
  | .ok _ => true
  | _ => false

/-- Embeds `Option::transpose` for `Option (ExpandResult α)`. -/
def ExpandResult.transposeOpt {α : Type} : Option (ExpandResult α) → ExpandResult (Option α)
  | none => .ok none
  | some (.ok a) => .ok (some a)
  | some (.err e) => .err e
  | some (.panicked p) => .panicked p

/-- Embeds `EventKind` from `event_parse.rs`: the nine variants that appear in the
match arms of `event_content.rs`. -/
inductive EventKind where
  | GlobalAccountData
  | RoomAccountData
  | Ephemeral
  | Message
  | State
  | ToDevice
  | Redaction
  | Presence
  | Decrypted
deriving DecidableEq

/-- Modelled from the spec: `EventKind::parse` is defined in `event_parse.rs`,
which is not among the provided sources.  Per the spec, the recognized kind
tokens are the six derivable `EventKind` variants, and any other token (the
three non-derivable categories, or an unrecognized token) is a parse error
listing the valid kinds. -/
def EventKind.parseIdent (s : String) : Except String EventKind :=
  if s = "GlobalAccountData" then .ok .GlobalAccountData
  else if s = "RoomAccountData" then .ok .RoomAccountData
  else if s = "EphemeralRoom" then .ok .Ephemeral
  else if s = "Message" then .ok .Message
  else if s = "State" then .ok .State
  else if s = "ToDevice" then .ok .ToDevice
  else .error ("valid event kinds are GlobalAccountData, RoomAccountData, EphemeralRoom, Message, State, ToDevice, found `" ++ s ++ "`")

/-- One meta item inside a `#[ruma_event(...)]` attribute, before parsing:
`type = "..."`, `kind = Ident`, `skip_redaction`, `custom_redacted`, or any
other (unrecognized) token. -/
inductive MetaToken where
  | typeTok (s : String)
  | kindTok (s : String)
  | skipRedactionTok
  | customRedactedTok
  | otherTok (s : String)
deriving DecidableEq

/-- Embeds `EventMeta` from `event_content.rs`. -/
inductive EventMeta where
  | Type' (s : String)
  | Kind (k : EventKind)
  | SkipRedacted
  | CustomRedacted
deriving DecidableEq

/-- Embeds `impl Parse for EventMeta`: lookahead on the four recognized keywords,
otherwise the lookahead error. -/
def EventMeta.parse : MetaToken → Except String EventMeta
  | .typeTok s => .ok (.Type' s)
  | .kindTok s =>
    match EventKind.parseIdent s with
    | .ok k => .ok (.Kind k)
    | .error e => .error e
  | .skipRedactionTok => .ok .SkipRedacted
  | .customRedactedTok => .ok .CustomRedacted
  | .otherTok s => .error ("expected one of: `type`, `kind`, `skip_redaction`, `custom_redacted`, found `" ++ s ++ "`")

def EventMeta.get_event_type : EventMeta → Option String
  | .Type' s => some s
  | _ => none

def EventMeta.get_event_kind : EventMeta → Option EventKind
  | .Kind k => some k
  | _ => none

/-- Embeds `matches!(a, &EventMeta::CustomRedacted)`. -/
def EventMeta.isCustomMeta : EventMeta → Bool
  | .CustomRedacted => true
  | _ => false

/-- Embeds `MetaAttrs` from `event_content.rs`: the parsed meta items of one
`#[ruma_event(...)]` attribute. -/
abbrev MetaAttrs := List EventMeta

def MetaAttrs.is_custom (a : MetaAttrs) : Bool :=
  a.any EventMeta.isCustomMeta

def MetaAttrs.get_event_type (a : MetaAttrs) : Option String :=
  a.findSome? EventMeta.get_event_type

def MetaAttrs.get_event_kind (a : MetaAttrs) : Option EventKind :=
  a.findSome? EventMeta.get_event_kind

/-- Embeds `impl Parse for MetaAttrs`: `Punctuated::<EventMeta, Token![,]>::parse_terminated`
parses every comma-separated item and fails at the first bad one. -/
def MetaAttrs.parse : List MetaToken → Except String MetaAttrs
  | [] => .ok []
  | t :: ts =>
    match EventMeta.parse t with
    | .error e => .error e
    | .ok m =>
      match MetaAttrs.parse ts with
      | .error e => .error e
      | .ok ms => .ok (m :: ms)

/-- A `syn::Attribute`: its path and (for our purposes) the meta tokens of its
argument list. -/
structure Attribute where
  path : String
  tokens : List MetaToken
deriving DecidableEq

/-- Embeds `Attribute::parse_args::<EventMeta>`: the argument stream must be exactly
one recognized meta item. -/
def Attribute.parseArgsEventMeta (a : Attribute) : Except String EventMeta :=
  match a.tokens with
  | [t] => EventMeta.parse t
  | [] => .error ("unexpected end of input")
  | _ => .error ("unexpected token")

/-- A named struct field of the derive input: name, type, attributes. -/
structure Field where
  name : String
  ty : String
  attrs : List Attribute
deriving DecidableEq

/-- The shape of the derive input's data: a struct with named fields, or
anything else (tuple struct, unit struct, enum). -/
inductive Data where
  | structNamed (fields : List Field)
  | otherData
deriving DecidableEq

/-- Embeds `syn::DeriveInput`: identifier, attributes, data. -/
structure DeriveInput where
  ident : String
  attrs : List Attribute
  data : Data
deriving DecidableEq

/-- The attributes of the input whose path is `ruma_event`
(`input.attrs.iter().filter(|attr| attr.path.is_ident("ruma_event"))`). -/
def rumaEventAttrs (input : DeriveInput) : List Attribute :=
  input.attrs.filter fun a => a.path == "ruma_event"

/-- Embeds `.map(|attr| attr.parse_args::<MetaAttrs>()).collect::<syn::Result<Vec<_>>>()`. -/
def collectParsedAttrs : List Attribute → Except String (List MetaAttrs)
  | [] => .ok []
  | a :: rest =>
    match MetaAttrs.parse a.tokens with
    | .error e => .error e
    | .ok ms =>
      match collectParsedAttrs rest with
      | .error e => .error e
      | .ok tl => .ok (ms :: tl)

/-- The field-keeping test of `generate_redacted_event_content` (lines 202-207):
the first attribute (of any path) whose args parse as an `EventMeta` must be
`SkipRedacted`. -/
def Field.isKept (f : Field) : Bool :=
  match f.attrs.findSome? (fun a => (Attribute.parseArgsEventMeta a).toOption) with
  | some .SkipRedacted => true
  | _ => false

/-- Dropping the compiler's own `ruma_event` attributes from a kept field
(`f.attrs.retain(|a| !a.path.is_ident("ruma_event"))`). -/
def Field.stripRumaAttrs (f : Field) : Field :=
  { f with attrs := f.attrs.filter fun a => !(a.path == "ruma_event") }

/-- The `skip_redaction` validation pass of `generate_redacted_event_content`
(lines 186-198): the first `ruma_event` field attribute whose args fail to
parse as an `EventMeta` aborts the expansion. -/
def validateFieldAttrs (named : List Field) : Except String Unit :=
  match ((named.map Field.attrs).flatten.filter fun a => a.path == "ruma_event").findSome?
      (fun a =>
        match Attribute.parseArgsEventMeta a with
        | .error e => some e
        | .ok _ => none) with
  | some e => .error e
  | none => .ok ()

/-- The `EventKind` constant emitted by `generate_static_event_content_impl`;
`Message` and `State` carry the `redacted` sub-flag. -/
inductive EventKindConst where
  | GlobalAccountData
  | RoomAccountData
  | EphemeralRoomData
  | Message (redacted : Bool)
  | State (redacted : Bool)
  | ToDevice
deriving DecidableEq

/-- The `redacted` sub-flag of an emitted `EventKind` constant (`false` for the
kinds that do not carry one). -/
def EventKindConst.redactedFlag : EventKindConst → Bool
  | .Message r => r
  | .State r => r
  | _ => false

/-- The semantic content of a generated `StaticEventContent` impl. -/
structure StaticImpl where
  KIND : EventKindConst
  TYPE : String
deriving DecidableEq

/-- The marker trait emitted by `generate_marker_trait_impl`. -/
inductive MarkerTrait where
  | GlobalAccountDataEventContent
  | RoomAccountDataEventContent
  | EphemeralRoomEventContent
  | MessageEventContent
  | StateEventContent
  | ToDeviceEventContent
deriving DecidableEq

/-- The redacted marker trait emitted inside `generate_redacted_event_content`. -/
inductive RedactedMarkerTrait where
  | RedactedMessageEventContent
  | RedactedStateEventContent
deriving DecidableEq

/-- The semantic content of a generated `EventContent` impl: the compiled
event-type string baked into `event_type` and `from_parts`. -/
structure EventContentImpl where
  eventType : String
deriving DecidableEq

/-- Embeds `generate_event_content_impl` (lines 349-378). -/
def generate_event_content_impl (_ident : String) (event_type : String) : EventContentImpl :=
  ⟨event_type⟩

/-- The generated `fn event_type(&self) -> &str { #event_type }`: a constant
function of the instance. -/
def EventContentImpl.event_type {α : Type} (impl : EventContentImpl) (_self : α) : String :=
  impl.eventType

/-- The generated `fn from_parts(ev_type, content)`: compare the event type
string first, then structurally deserialize the payload.  The structural
deserializer (`serde_json::from_str`) is passed in as `deser`. -/
def EventContentImpl.from_parts {P α : Type} (impl : EventContentImpl)
    (deser : P → Except String α) (ev_type : String) (content : P) : Except String α :=
  if ev_type ≠ impl.eventType then
    .error ("expected event type `" ++ impl.eventType ++ "`, found `" ++ ev_type ++ "`")
  else
    deser content

/-- Embeds `generate_static_event_content_impl` (lines 380-405); the three
non-derivable kinds hit `unreachable!`. -/
def generate_static_event_content_impl (_ident : String) (event_kind : EventKind)
    (redacted : Bool) (event_type : String) : ExpandResult StaticImpl :=
  match event_kind with
  | .GlobalAccountData => .ok ⟨.GlobalAccountData, event_type⟩
  | .RoomAccountData => .ok ⟨.RoomAccountData, event_type⟩
  | .Ephemeral => .ok ⟨.EphemeralRoomData, event_type⟩
  | .Message => .ok ⟨.Message redacted, event_type⟩
  | .State => .ok ⟨.State redacted, event_type⟩
  | .ToDevice => .ok ⟨.ToDevice, event_type⟩
  | .Redaction => .panicked ("not a valid event content kind")
  | .Presence => .panicked ("not a valid event content kind")
  | .Decrypted => .panicked ("not a valid event content kind")

/-- Embeds `generate_marker_trait_impl` (lines 322-347). -/
def generate_marker_trait_impl (event_kind : EventKind) (_ident : String) :
    ExpandResult MarkerTrait :=
  match event_kind with
  | .GlobalAccountData => .ok .GlobalAccountDataEventContent
  | .RoomAccountData => .ok .RoomAccountDataEventContent
  | .Ephemeral => .ok .EphemeralRoomEventContent
  | .Message => .ok .MessageEventContent
  | .State => .ok .StateEventContent
  | .ToDevice => .ok .ToDeviceEventContent
  | .Redaction => .err ("valid event kinds are GlobalAccountData, RoomAccountData, EphemeralRoom, Message, State, ToDevice")
  | .Presence => .err ("valid event kinds are GlobalAccountData, RoomAccountData, EphemeralRoom, Message, State, ToDevice")
  | .Decrypted => .err ("valid event kinds are GlobalAccountData, RoomAccountData, EphemeralRoom, Message, State, ToDevice")

/-- The semantic content of the generated redacted counterpart: the
`RedactContent` impl, the redacted struct, its `EventContent` and
`RedactedEventContent` impls, its constructor, marker trait and static
descriptor. -/
structure RedactedArtifact where
  redacted_ident : String
  kept_redacted_fields : List Field
  eventContent : EventContentImpl
  has_serialize_fields : Bool
  has_deserialize_fields : Bool
  constructor_new : Bool
  marker : Option RedactedMarkerTrait
  staticImpl : Option StaticImpl
deriving DecidableEq

/-- The generated `fn redact(self, version: &RoomVersionId) -> Redacted`:
construct the redacted struct from the kept fields of `self`, in kept-field
order, ignoring `version`.  Struct values are association lists from field
names to values. -/
def RedactedArtifact.redact {α : Type} (a : RedactedArtifact)
    (self : List (String × α)) (_version : RoomVersionId) : List (String × α) :=
  a.kept_redacted_fields.filterMap fun f => (self.lookup f.name).map fun x => (f.name, x)

/-- The generated `fn empty(ev_type) -> serde_json::Result<Self>`: check the
event type string, then succeed with the empty struct when there are no kept
fields and fail otherwise. -/
def RedactedArtifact.empty {α : Type} (a : RedactedArtifact) (ev_type : String) :
    Except String (List (String × α)) :=
  if ev_type ≠ a.eventContent.eventType then
    .error ("expected event type `" ++ a.eventContent.eventType ++ "`, found `" ++ ev_type ++ "`")
  else if a.kept_redacted_fields.isEmpty then
    .ok []
  else
    .error ("this redacted event has fields that cannot be constructed")

/-- Embeds `generate_redacted_event_content` (lines 166-320). -/
def generate_redacted_event_content (input : DeriveInput) (event_type : String)
    (event_kind : Option EventKind) : ExpandResult RedactedArtifact :=
  let redacted_ident := "Redacted" ++ input.ident
  let keptResult : ExpandResult (List Field) :=
    match input.data with
    | .structNamed named =>
      match validateFieldAttrs named with
      | .error e => .err e
      | .ok _ => .ok ((named.filter Field.isKept).map Field.stripRumaAttrs)
    | .otherData => .ok []
  match keptResult with
  | .err e => .err e
  | .panicked p => .panicked p
  | .ok kept_redacted_fields =>
    let marker : Option RedactedMarkerTrait :=
      match event_kind with
      | some .Message => some .RedactedMessageEventContent
      | some .State => some .RedactedStateEventContent
      | _ => none
    match ExpandResult.transposeOpt (event_kind.map fun k =>
        generate_static_event_content_impl redacted_ident k true event_type) with
    | .err e => .err e
    | .panicked p => .panicked p
    | .ok staticImpl =>
      .ok
        { redacted_ident
          kept_redacted_fields
          eventContent := generate_event_content_impl redacted_ident event_type
          has_serialize_fields := !kept_redacted_fields.isEmpty
          has_deserialize_fields := !kept_redacted_fields.isEmpty
          constructor_new := kept_redacted_fields.isEmpty
          marker
          staticImpl }

/-- Embeds `needs_redacted` (lines 407-413). -/
def needs_redacted (input : List MetaAttrs) (event_kind : Option EventKind) : Bool :=
  !(input.any MetaAttrs.is_custom) &&
    (match event_kind with
     | some .Message => true
     | some .State => true
     | _ => false)

/-- The full expansion output of the derive macro for one content struct. -/
structure Expanded where
  redacted : Option RedactedArtifact
  eventContent : EventContentImpl
  staticImpl : Option StaticImpl
  marker : Option MarkerTrait
deriving DecidableEq

/-- Lines 146-163 of `expand_event_content`: redaction artifact, event-content
impl, static descriptor, marker trait, in source order (the static descriptor
is computed eagerly and can panic before the marker trait's error is raised). -/
def expandRest (input : DeriveInput) (content_attr : List MetaAttrs)
    (event_type : String) (event_kind : Option EventKind) : ExpandResult Expanded :=
  match ExpandResult.transposeOpt
      (if needs_redacted content_attr event_kind then
        some (generate_redacted_event_content input event_type event_kind)
      else none) with
  | .err e => .err e
  | .panicked p => .panicked p
  | .ok redacted =>
    match ExpandResult.transposeOpt (event_kind.map fun k =>
        generate_static_event_content_impl input.ident k false event_type) with
    | .err e => .err e
    | .panicked p => .panicked p
    | .ok staticImpl =>
      match ExpandResult.transposeOpt (event_kind.map fun k =>
          generate_marker_trait_impl k input.ident) with
      | .err e => .err e
      | .panicked p => .panicked p
      | .ok marker =>
        .ok
          { redacted
            eventContent := generate_event_content_impl input.ident event_type
            staticImpl
            marker }

/-- Embeds `expand_event_content` (lines 102-164). -/
def expand_event_content (input : DeriveInput) : ExpandResult Expanded :=
  match collectParsedAttrs (rumaEventAttrs input) with
  | .error e => .err e
  | .ok content_attr =>
    match content_attr.filterMap MetaAttrs.get_event_type with
    | [] => .err ("no event type attribute found, add `#[ruma_event(type = \"any.room.event\", kind = Kind)]` below the event content derive")
    | [event_type] =>
      match content_attr.filterMap MetaAttrs.get_event_kind with
      | [] => expandRest input content_attr event_type none
      | [event_kind] => expandRest input content_attr event_type (some event_kind)
      | _ => .err ("multiple event kind attribute found, there can only be one")
    | _ => .err ("multiple event type attribute found, there can only be one")

/-! ### Surface projections of a derive input's schema

These read the raw attribute tokens directly (without running the parser
pipeline), so that theorems about `expand_event_content` can be stated against
the authored schema. -/

def typeTokName : MetaToken → Option String
  | .typeTok s => some s
  | _ => none

def kindTokParsed : MetaToken → Option EventKind
  | .kindTok s => (EventKind.parseIdent s).toOption
  | _ => none

def isCustomTok : MetaToken → Bool
  | .customRedactedTok => true
  | _ => false

/-- The event-type string contributed by one `#[ruma_event(...)]` attribute:
the first `type = "..."` token, if any. -/
def Attribute.typeDecl (a : Attribute) : Option String :=
  (a.tokens.filterMap typeTokName).head?

/-- The event kind contributed by one `#[ruma_event(...)]` attribute: the first
`kind = ...` token whose identifier is a recognized kind, if any. -/
def Attribute.kindDecl (a : Attribute) : Option EventKind :=
  (a.tokens.filterMap kindTokParsed).head?

/-- All event-type strings declared across the schema's `ruma_event` attributes. -/
def declaredTypes (input : DeriveInput) : List String :=
  (rumaEventAttrs input).filterMap Attribute.typeDecl

/-- All event kinds declared across the schema's `ruma_event` attributes. -/
def declaredKinds (input : DeriveInput) : List EventKind :=
  (rumaEventAttrs input).filterMap Attribute.kindDecl

/-- Whether the schema carries a `custom_redacted` opt-out token anywhere. -/
def schemaHasCustom (input : DeriveInput) : Bool :=
  (rumaEventAttrs input).any fun a => a.tokens.any isCustomTok

/-- The names of the fields marked `skip_redaction`, in declaration order. -/
def keptNames (fields : List Field) : List String :=
  (fields.filter Field.isKept).map Field.name

/-! ### Structural (de)serialization model for the round-trip claim -/

/-- A JSON value (the payloads handled by the generated `from_parts`). -/
inductive Json where
  | null
  | bool' (b : Bool)
  | num (n : Int)
  | str (s : String)
  | arr (xs : List Json)
  | obj (members : List (String × Json))

/-- One field of a serde-derived struct: its wire name and whether it is an
`Option` field serialized with `skip_serializing_if = "Option::is_none"`. -/
structure SerdeField where
  wire : String
  optional : Bool
deriving DecidableEq

/-- Modelled from the spec: the serde-derived `Serialize` impl of a content
struct (external to this repository).  Each present field contributes one
member under its wire name, in declaration order; absent optional fields are
skipped. -/
def serializeStruct (specs : List SerdeField) (vals : List (Option Json)) : Json :=
  .obj ((specs.zip vals).filterMap fun p => p.2.map fun j => (p.1.wire, j))

/-- Modelled from the spec: deserialization of one field of a serde-derived
struct; a missing member is an error for a required field and `None` for an
optional one. -/
def deserField (members : List (String × Json)) (sp : SerdeField) : Except String (Option Json) :=
  match members.lookup sp.wire with
  | some j => .ok (some j)
  | none => if sp.optional then .ok none else .error ("missing field `" ++ sp.wire ++ "`")

/-- Modelled from the spec: deserialization of all fields, in order. -/
def deserFields (members : List (String × Json)) : List SerdeField → Except String (List (Option Json))
  | [] => .ok []
  | sp :: sps =>
    match deserField members sp with
    | .error e => .error e
    | .ok v =>
      match deserFields members sps with
      | .error e => .error e
      | .ok vs => .ok (v :: vs)

/-- Modelled from the spec: the serde-derived `Deserialize` impl of a content
struct, requiring a JSON object payload. -/
def deserializeStruct (specs : List SerdeField) : Json → Except String (List (Option Json))
  | .obj members => deserFields members specs
  | _ => .error ("invalid type: expected a map")

/-! ### `Unsigned` from `crates/ruma-events/src/unsigned.rs` -/

/-- Embeds `Unsigned` (lines 11-30), with the `unstable-pre-spec` `relations` field
included; its payload type `Relations` is abstract here. -/
structure Unsigned (R : Type) where
  age : Option Int
  transaction_id : Option String
  relations : Option R
deriving DecidableEq

/-- Embeds `Unsigned::new` (lines 34-36): `Self::default()`, i.e. every field `None`. -/
def Unsigned.new {R : Type} : Unsigned R :=
  ⟨none, none, none⟩

/-- Embeds `Unsigned::is_empty` (lines 43-45). -/
def Unsigned.is_empty {R : Type} (u : Unsigned R) : Bool :=
  u.age.isNone && u.transaction_id.isNone

/-! ### Concrete schemas and expansion outputs used by witnesses -/

/-- A state content schema with one `skip_redaction` field. -/
def fieldsW1 : List Field :=
  [⟨"creator", "String", [⟨"ruma_event", [.skipRedactionTok]⟩]⟩, ⟨"topic", "String", []⟩]

def inW1 : DeriveInput :=
  ⟨"TestContent", [⟨"ruma_event", [.typeTok ("m.room.test"), .kindTok ("State")]⟩],
   .structNamed fieldsW1⟩

def artW1 : RedactedArtifact :=
  ⟨"RedactedTestContent", [⟨"creator", "String", []⟩], ⟨"m.room.test"⟩, true, true, false,
   some .RedactedStateEventContent, some ⟨.State true, "m.room.test"⟩⟩

def outW1 : Expanded :=
  ⟨some artW1, ⟨"m.room.test"⟩, some ⟨.State false, "m.room.test"⟩, some .StateEventContent⟩

/-- The `m.key.verification.done` message content schema of
`crates/ruma-events/src/key/verification/done.rs` (no kept fields). -/
def fieldsW2 : List Field :=
  [⟨"relates_to", "Relation", []⟩]

def inW2 : DeriveInput :=
  ⟨"DoneEventContent",
   [⟨"ruma_event", [.typeTok ("m.key.verification.done"), .kindTok ("Message")]⟩],
   .structNamed fieldsW2⟩

def artW2 : RedactedArtifact :=
  ⟨"RedactedDoneEventContent", [], ⟨"m.key.verification.done"⟩, false, false, true,
   some .RedactedMessageEventContent, some ⟨.Message true, "m.key.verification.done"⟩⟩

def outW2 : Expanded :=
  ⟨some artW2, ⟨"m.key.verification.done"⟩,
   some ⟨.Message false, "m.key.verification.done"⟩, some .MessageEventContent⟩

/-- A `ToDevice` schema whose field carries an unrecognized `ruma_event` token. -/
def inC6 : DeriveInput :=
  ⟨"Foo", [⟨"ruma_event", [.typeTok ("m.x"), .kindTok ("ToDevice")]⟩],
   .structNamed [⟨"foo", "String", [⟨"ruma_event", [.otherTok ("bogus")]⟩]⟩]⟩

/-- The same malformed field attribute, but on the redaction path (`Message`). -/
def inC6b : DeriveInput :=
  ⟨"Foo", [⟨"ruma_event", [.typeTok ("m.x"), .kindTok ("Message")]⟩],
   .structNamed [⟨"foo", "String", [⟨"ruma_event", [.otherTok ("bogus")]⟩]⟩]⟩

/-- A schema with two event type attributes. -/
def inC7 : DeriveInput :=
  ⟨"Foo", [⟨"ruma_event", [.typeTok ("m.a")]⟩, ⟨"ruma_event", [.typeTok ("m.b")]⟩], .otherData⟩

/-- A schema with no event type attribute. -/
def inC7zero : DeriveInput :=
  ⟨"Foo", [⟨"ruma_event", [.kindTok ("Message")]⟩], .otherData⟩

/-- A schema with two event kind attributes. -/
def inC7kinds : DeriveInput :=
  ⟨"Foo", [⟨"ruma_event", [.typeTok ("m.a"), .kindTok ("Message")]⟩,
           ⟨"ruma_event", [.kindTok ("State")]⟩], .otherData⟩

/-- A schema declaring the non-derivable kind `Redaction`. -/
def inC5 : DeriveInput :=
  ⟨"Foo", [⟨"ruma_event", [.typeTok ("m.x"), .kindTok ("Redaction")]⟩], .otherData⟩

/-- Serde shape used by the round-trip witness: one required and one optional
field. -/
def specsW : List SerdeField :=
  [⟨"body", false⟩, ⟨"formatted_body", true⟩]

def valsW : List (Option Json) :=
  [some (.str ("hello")), none]

/-! ## Helper lemmas -/

theorem findSome?_eq_head?_filterMap {α β : Type} (f : α → Option β) (l : List α) :
    l.findSome? f = (l.filterMap f).head? := by
  induction l with
  | nil => rfl
  | cons a l ih =>
    cases h : f a with
    | none =>
      rw [List.findSome?_cons_of_isNone l (by simp [h]), List.filterMap_cons_none h, ih]
    | some b =>
      rw [List.findSome?_cons_of_isSome l (by simp [h]), List.filterMap_cons_some h, h,
        List.head?_cons]

theorem parseIdent_ok_not_bad {s : String} {k : EventKind}
    (h : EventKind.parseIdent s = .ok k) :
    k ≠ .Redaction ∧ k ≠ .Presence ∧ k ≠ .Decrypted := by
  unfold EventKind.parseIdent at h
  split_ifs at h <;> injection h with h <;> subst h <;> decide

theorem MetaAttrs.parse_ok_rel {toks : List MetaToken} {ms : MetaAttrs}
    (h : MetaAttrs.parse toks = .ok ms) :
    List.Forall₂ (fun t m => EventMeta.parse t = .ok m) toks ms := by
  induction toks generalizing ms with
  | nil =>
    simp only [MetaAttrs.parse] at h
    cases h
    exact .nil
  | cons t ts ih =>
    simp only [MetaAttrs.parse] at h
    split at h
    · exact absurd h (by simp)
    · split at h
      · exact absurd h (by simp)
      · cases h
        exact .cons (by assumption) (ih (by assumption))

theorem forall2_type_proj {toks : List MetaToken} {ms : MetaAttrs}
    (h : List.Forall₂ (fun t m => EventMeta.parse t = .ok m) toks ms) :
    ms.filterMap EventMeta.get_event_type = toks.filterMap typeTokName := by
  induction h with
  | nil => rfl
  | @cons t m ts ms' hp htl ih =>
    have he : EventMeta.get_event_type m = typeTokName t := by
      cases t with
      | typeTok s =>
        simp only [EventMeta.parse] at hp
        cases hp
        rfl
      | kindTok s =>
        simp only [EventMeta.parse] at hp
        split at hp
        · cases hp; rfl
        · exact absurd hp (by simp)
      | skipRedactionTok => cases hp; rfl
      | customRedactedTok => cases hp; rfl
      | otherTok s => exact absurd hp (by simp [EventMeta.parse])
    rw [List.filterMap_cons, List.filterMap_cons, he, ih]

theorem forall2_kind_proj {toks : List MetaToken} {ms : MetaAttrs}
    (h : List.Forall₂ (fun t m => EventMeta.parse t = .ok m) toks ms) :
    ms.filterMap EventMeta.get_event_kind = toks.filterMap kindTokParsed := by
  induction h with
  | nil => rfl
  | @cons t m ts ms' hp htl ih =>
    have he : EventMeta.get_event_kind m = kindTokParsed t := by
      cases t with
      | typeTok s =>
        simp only [EventMeta.parse] at hp
        cases hp
        rfl
      | kindTok s =>
        simp only [EventMeta.parse] at hp
        split at hp
        · cases hp
          rename_i k hk
          simp [EventMeta.get_event_kind, kindTokParsed, hk, Except.toOption]
        · exact absurd hp (by simp)
      | skipRedactionTok => cases hp; rfl
      | customRedactedTok => cases hp; rfl
      | otherTok s => exact absurd hp (by simp [EventMeta.parse])
    rw [List.filterMap_cons, List.filterMap_cons, he, ih]

theorem forall2_custom_proj {toks : List MetaToken} {ms : MetaAttrs}
    (h : List.Forall₂ (fun t m => EventMeta.parse t = .ok m) toks ms) :
    MetaAttrs.is_custom ms = toks.any isCustomTok := by
  induction h with
  | nil => rfl
  | @cons t m ts ms' hp htl ih =>
    have he : m.isCustomMeta = isCustomTok t := by
      cases t with
      | typeTok s =>
        simp only [EventMeta.parse] at hp
        cases hp
        rfl
      | kindTok s =>
        simp only [EventMeta.parse] at hp
        split at hp
        · cases hp; rfl
        · exact absurd hp (by simp)
      | skipRedactionTok => cases hp; rfl
      | customRedactedTok => cases hp; rfl
      | otherTok s => exact absurd hp (by simp [EventMeta.parse])
    simp only [MetaAttrs.is_custom, List.any_cons] at *
    rw [he, ih]

theorem collect_ok_rel {attrs : List Attribute} {ca : List MetaAttrs}
    (h : collectParsedAttrs attrs = .ok ca) :
    List.Forall₂ (fun (a : Attribute) ms => MetaAttrs.parse a.tokens = .ok ms) attrs ca := by
  induction attrs generalizing ca with
  | nil =>
    simp only [collectParsedAttrs] at h
    cases h
    exact .nil
  | cons a rest ih =>
    simp only [collectParsedAttrs] at h
    split at h
    · exact absurd h (by simp)
    · split at h
      · exact absurd h (by simp)
      · cases h
        exact .cons (by assumption) (ih (by assumption))

theorem forall2_collect_type_proj {attrs : List Attribute} {ca : List MetaAttrs}
    (h : List.Forall₂ (fun (a : Attribute) ms => MetaAttrs.parse a.tokens = .ok ms) attrs ca) :
    ca.filterMap MetaAttrs.get_event_type = attrs.filterMap Attribute.typeDecl := by
  induction h with
  | nil => rfl
  | @cons a ms rest ca' hp htl ih =>
    have he : MetaAttrs.get_event_type ms = a.typeDecl := by
      rw [MetaAttrs.get_event_type, findSome?_eq_head?_filterMap,
        forall2_type_proj (MetaAttrs.parse_ok_rel hp), Attribute.typeDecl]
    rw [List.filterMap_cons, List.filterMap_cons, he, ih]

theorem collect_type_proj {attrs : List Attribute} {ca : List MetaAttrs}
    (h : collectParsedAttrs attrs = .ok ca) :
    ca.filterMap MetaAttrs.get_event_type = attrs.filterMap Attribute.typeDecl :=
  forall2_collect_type_proj (collect_ok_rel h)

theorem forall2_collect_kind_proj {attrs : List Attribute} {ca : List MetaAttrs}
    (h : List.Forall₂ (fun (a : Attribute) ms => MetaAttrs.parse a.tokens = .ok ms) attrs ca) :
    ca.filterMap MetaAttrs.get_event_kind = attrs.filterMap Attribute.kindDecl := by
  induction h with
  | nil => rfl
  | @cons a ms rest ca' hp htl ih =>
    have he : MetaAttrs.get_event_kind ms = a.kindDecl := by
      rw [MetaAttrs.get_event_kind, findSome?_eq_head?_filterMap,
        forall2_kind_proj (MetaAttrs.parse_ok_rel hp), Attribute.kindDecl]
    rw [List.filterMap_cons, List.filterMap_cons, he, ih]

theorem collect_kind_proj {attrs : List Attribute} {ca : List MetaAttrs}
    (h : collectParsedAttrs attrs = .ok ca) :
    ca.filterMap MetaAttrs.get_event_kind = attrs.filterMap Attribute.kindDecl :=
  forall2_collect_kind_proj (collect_ok_rel h)

theorem forall2_collect_custom_proj {attrs : List Attribute} {ca : List MetaAttrs}
    (h : List.Forall₂ (fun (a : Attribute) ms => MetaAttrs.parse a.tokens = .ok ms) attrs ca) :
    ca.any MetaAttrs.is_custom = attrs.any fun a => a.tokens.any isCustomTok := by
  induction h with
  | nil => rfl
  | @cons a ms rest ca' hp htl ih =>
    rw [List.any_cons, List.any_cons, forall2_custom_proj (MetaAttrs.parse_ok_rel hp), ih]

theorem collect_custom_proj {attrs : List Attribute} {ca : List MetaAttrs}
    (h : collectParsedAttrs attrs = .ok ca) :
    ca.any MetaAttrs.is_custom = attrs.any fun a => a.tokens.any isCustomTok :=
  forall2_collect_custom_proj (collect_ok_rel h)

theorem MetaAttrs.parse_err_of_mem {toks : List MetaToken} {t : MetaToken} {e : String}
    (ht : t ∈ toks) (he : EventMeta.parse t = .error e) :
    ∃ e', MetaAttrs.parse toks = .error e' := by
  induction toks with
  | nil => cases ht
  | cons t0 ts ih =>
    simp only [MetaAttrs.parse]
    cases hp : EventMeta.parse t0 with
    | error e0 => exact ⟨e0, rfl⟩
    | ok m =>
      rcases List.mem_cons.mp ht with rfl | hmem
      · rw [hp] at he; cases he
      · obtain ⟨e', h'⟩ := ih hmem
        rw [h']
        exact ⟨e', rfl⟩

theorem collect_err_of_mem {attrs : List Attribute} {a : Attribute} {e : String}
    (ha : a ∈ attrs) (he : MetaAttrs.parse a.tokens = .error e) :
    ∃ e', collectParsedAttrs attrs = .error e' := by
  induction attrs with
  | nil => cases ha
  | cons a0 rest ih =>
    simp only [collectParsedAttrs]
    cases hp : MetaAttrs.parse a0.tokens with
    | error e0 => exact ⟨e0, rfl⟩
    | ok ms =>
      rcases List.mem_cons.mp ha with rfl | hmem
      · rw [hp] at he; cases he
      · obtain ⟨e', h'⟩ := ih hmem
        rw [h']
        exact ⟨e', rfl⟩

theorem mem_declaredKinds_not_bad {input : DeriveInput} {k : EventKind}
    (h : k ∈ declaredKinds input) :
    k ≠ .Redaction ∧ k ≠ .Presence ∧ k ≠ .Decrypted := by
  rw [declaredKinds] at h
  obtain ⟨a, _, ha⟩ := List.mem_filterMap.mp h
  rw [Attribute.kindDecl] at ha
  have hmem : k ∈ a.tokens.filterMap kindTokParsed := List.mem_of_mem_head? ha
  obtain ⟨tk, _, htk⟩ := List.mem_filterMap.mp hmem
  cases tk with
  | kindTok s =>
    simp only [kindTokParsed] at htk
    cases hpi : EventKind.parseIdent s with
    | ok k' =>
      rw [hpi] at htk
      simp only [Except.toOption] at htk
      cases htk
      exact parseIdent_ok_not_bad hpi
    | error e =>
      rw [hpi] at htk
      simp [Except.toOption] at htk
  | typeTok s => simp [kindTokParsed] at htk
  | skipRedactionTok => simp [kindTokParsed] at htk
  | customRedactedTok => simp [kindTokParsed] at htk
  | otherTok s => simp [kindTokParsed] at htk

theorem contains_eq_true_of_mem {l : List String} {a : String} (h : a ∈ l) :
    l.contains a = true :=
  List.elem_eq_true_of_mem h

theorem contains_eq_false_of_not_mem {l : List String} {a : String} (h : a ∉ l) :
    l.contains a = false := by
  cases hc : l.contains a with
  | false => rfl
  | true =>
    obtain ⟨b, hb, hab⟩ := List.contains_iff_exists_mem_beq.mp hc
    exact absurd (beq_iff_eq.mp hab ▸ hb) h

theorem lookup_cons_ne {α : Type} {m n : String} {x : α} {v : List (String × α)}
    (h : m ≠ n) : List.lookup m ((n, x) :: v) = List.lookup m v := by
  rw [List.lookup_cons, beq_eq_false_iff_ne.mpr h]

/-! ## Inversion lemmas for the expansion pipeline -/

theorem expand_ok_elim {input : DeriveInput} {out : Expanded}
    (h : expand_event_content input = .ok out) :
    ∃ ca t, collectParsedAttrs (rumaEventAttrs input) = .ok ca ∧
      ca.filterMap MetaAttrs.get_event_type = [t] ∧
      ((ca.filterMap MetaAttrs.get_event_kind = [] ∧ expandRest input ca t none = .ok out) ∨
        (∃ k, ca.filterMap MetaAttrs.get_event_kind = [k] ∧
          expandRest input ca t (some k) = .ok out)) := by
  unfold expand_event_content at h
  split at h
  · exact absurd h (by simp)
  · rename_i ca hca
    split at h
    · exact absurd h (by simp)
    · rename_i t ht
      split at h
      · rename_i hk
        exact ⟨ca, t, hca, ht, .inl ⟨hk, h⟩⟩
      · rename_i k hk
        exact ⟨ca, t, hca, ht, .inr ⟨k, hk, h⟩⟩
      · exact absurd h (by simp)
    · exact absurd h (by simp)

theorem expandRest_ok_elim {input : DeriveInput} {ca : List MetaAttrs} {t : String}
    {k : Option EventKind} {out : Expanded} (h : expandRest input ca t k = .ok out) :
    out.eventContent = ⟨t⟩ ∧
    ((needs_redacted ca k = true ∧
        ∃ art, generate_redacted_event_content input t k = .ok art ∧ out.redacted = some art) ∨
      (needs_redacted ca k = false ∧ out.redacted = none)) ∧
    ((k = none ∧ out.staticImpl = none ∧ out.marker = none) ∨
      (∃ k0 st mk, k = some k0 ∧
        generate_static_event_content_impl input.ident k0 false t = .ok st ∧
        out.staticImpl = some st ∧
        generate_marker_trait_impl k0 input.ident = .ok mk ∧ out.marker = some mk)) := by
  unfold expandRest at h
  split at h
  · exact absurd h (by simp)
  · exact absurd h (by simp)
  · rename_i redactedVal hred
    split at h
    · exact absurd h (by simp)
    · exact absurd h (by simp)
    · rename_i staticVal hst
      split at h
      · exact absurd h (by simp)
      · exact absurd h (by simp)
      · rename_i markerVal hmk
        injection h with h
        subst h
        refine ⟨rfl, ?_, ?_⟩
        · cases hn : needs_redacted ca k with
          | true =>
            rw [hn, if_pos rfl] at hred
            · cases hg : generate_redacted_event_content input t k with
              | ok art =>
                rw [hg] at hred
                simp only [ExpandResult.transposeOpt] at hred
                injection hred with hred
                exact .inl ⟨rfl, art, rfl, by rw [← hred]⟩
              | err e =>
                rw [hg] at hred
                exact absurd hred (by simp [ExpandResult.transposeOpt])
              | panicked p =>
                rw [hg] at hred
                exact absurd hred (by simp [ExpandResult.transposeOpt])
          | false =>
            rw [hn, if_neg (by simp)] at hred
            simp only [ExpandResult.transposeOpt] at hred
            injection hred with hred
            exact .inr ⟨rfl, by rw [← hred]⟩
        · cases k with
          | none =>
            simp only [Option.map_none', ExpandResult.transposeOpt] at hst hmk
            injection hst with hst
            injection hmk with hmk
            exact .inl ⟨rfl, by rw [← hst], by rw [← hmk]⟩
          | some k0 =>
            simp only [Option.map_some'] at hst hmk
            cases hg : generate_static_event_content_impl input.ident k0 false t with
            | ok st =>
              rw [hg] at hst
              simp only [ExpandResult.transposeOpt] at hst
              injection hst with hst
              cases hm : generate_marker_trait_impl k0 input.ident with
              | ok mk =>
                rw [hm] at hmk
                simp only [ExpandResult.transposeOpt] at hmk
                injection hmk with hmk
                exact .inr ⟨k0, st, mk, rfl, hg, by rw [← hst], hm, by rw [← hmk]⟩
              | err e =>
                rw [hm] at hmk
                exact absurd hmk (by simp [ExpandResult.transposeOpt])
              | panicked p =>
                rw [hm] at hmk
                exact absurd hmk (by simp [ExpandResult.transposeOpt])
            | err e =>
              rw [hg] at hst
              exact absurd hst (by simp [ExpandResult.transposeOpt])
            | panicked p =>
              rw [hg] at hst
              exact absurd hst (by simp [ExpandResult.transposeOpt])

theorem gen_redacted_ok_elim {input : DeriveInput} {t : String} {k : Option EventKind}
    {art : RedactedArtifact} (h : generate_redacted_event_content input t k = .ok art) :
    art.eventContent = ⟨t⟩ ∧
    ((∃ fields, input.data = .structNamed fields ∧ validateFieldAttrs fields = .ok () ∧
        art.kept_redacted_fields = (fields.filter Field.isKept).map Field.stripRumaAttrs) ∨
      (input.data = .otherData ∧ art.kept_redacted_fields = [])) ∧
    ((k = none ∧ art.staticImpl = none) ∨
      (∃ k0 st, k = some k0 ∧
        generate_static_event_content_impl ("Redacted" ++ input.ident) k0 true t = .ok st ∧
        art.staticImpl = some st)) := by
  unfold generate_redacted_event_content at h
  have hkept : ∃ kept,
      ((match input.data with
        | .structNamed named =>
          match validateFieldAttrs named with
          | .error e => ExpandResult.err e
          | .ok _ => .ok ((named.filter Field.isKept).map Field.stripRumaAttrs)
        | .otherData => .ok []) = ExpandResult.ok kept) ∧
      ((∃ fields, input.data = .structNamed fields ∧ validateFieldAttrs fields = .ok () ∧
          kept = (fields.filter Field.isKept).map Field.stripRumaAttrs) ∨
        (input.data = .otherData ∧ kept = [])) := by
    cases hd : input.data with
    | structNamed fields =>
      cases hv : validateFieldAttrs fields with
      | error e =>
        rw [hd] at h
        dsimp only at h
        rw [hv] at h
        exact absurd h (by simp)
      | ok u =>
        cases u
        exact ⟨(fields.filter Field.isKept).map Field.stripRumaAttrs,
          by dsimp only; rw [hv], .inl ⟨fields, rfl, hv, rfl⟩⟩
    | otherData => exact ⟨[], rfl, .inr ⟨rfl, rfl⟩⟩
  obtain ⟨kept, hkeq, hkcases⟩ := hkept
  rw [hkeq] at h
  dsimp only at h
  cases k with
  | none =>
    dsimp only [Option.map_none', ExpandResult.transposeOpt] at h
    injection h with h
    subst h
    exact ⟨rfl, by simpa using hkcases, .inl ⟨rfl, rfl⟩⟩
  | some k0 =>
    dsimp only [Option.map_some'] at h
    cases hg : generate_static_event_content_impl ("Redacted" ++ input.ident) k0 true t with
    | ok st =>
      rw [hg] at h
      dsimp only [ExpandResult.transposeOpt] at h
      injection h with h
      subst h
      exact ⟨rfl, by simpa using hkcases, .inr ⟨k0, st, rfl, hg, rfl⟩⟩
    | err e =>
      rw [hg] at h
      exact absurd h (by simp [ExpandResult.transposeOpt])
    | panicked p =>
      rw [hg] at h
      exact absurd h (by simp [ExpandResult.transposeOpt])

/-! ## Success lemmas for the expansion pipeline -/

theorem gen_static_ok_not_bad {k : EventKind} (id t : String) (r : Bool)
    (h : k ≠ .Redaction ∧ k ≠ .Presence ∧ k ≠ .Decrypted) :
    ∃ st, generate_static_event_content_impl id k r t = .ok st := by
  cases k with
  | Redaction => exact absurd rfl h.1
  | Presence => exact absurd rfl h.2.1
  | Decrypted => exact absurd rfl h.2.2
  | GlobalAccountData => exact ⟨_, rfl⟩
  | RoomAccountData => exact ⟨_, rfl⟩
  | Ephemeral => exact ⟨_, rfl⟩
  | Message => exact ⟨_, rfl⟩
  | State => exact ⟨_, rfl⟩
  | ToDevice => exact ⟨_, rfl⟩

theorem gen_marker_ok_not_bad {k : EventKind} (id : String)
    (h : k ≠ .Redaction ∧ k ≠ .Presence ∧ k ≠ .Decrypted) :
    ∃ mk, generate_marker_trait_impl k id = .ok mk := by
  cases k with
  | Redaction => exact absurd rfl h.1
  | Presence => exact absurd rfl h.2.1
  | Decrypted => exact absurd rfl h.2.2
  | GlobalAccountData => exact ⟨_, rfl⟩
  | RoomAccountData => exact ⟨_, rfl⟩
  | Ephemeral => exact ⟨_, rfl⟩
  | Message => exact ⟨_, rfl⟩
  | State => exact ⟨_, rfl⟩
  | ToDevice => exact ⟨_, rfl⟩

theorem gen_redacted_ok_build {input : DeriveInput} {t : String} {k : Option EventKind}
    (hv : ∀ fields, input.data = .structNamed fields → validateFieldAttrs fields = .ok ())
    (hk : ∀ k0, k = some k0 → k0 ≠ .Redaction ∧ k0 ≠ .Presence ∧ k0 ≠ .Decrypted) :
    ∃ art, generate_redacted_event_content input t k = .ok art := by
  unfold generate_redacted_event_content
  have hkeq : ∃ kept,
      (match input.data with
        | .structNamed named =>
          match validateFieldAttrs named with
          | .error e => ExpandResult.err e
          | .ok _ => .ok ((named.filter Field.isKept).map Field.stripRumaAttrs)
        | .otherData => .ok []) = ExpandResult.ok kept := by
    cases hd : input.data with
    | structNamed fields =>
      exact ⟨(fields.filter Field.isKept).map Field.stripRumaAttrs,
        by dsimp only; rw [hv fields hd]⟩
    | otherData => exact ⟨[], rfl⟩
  obtain ⟨kept, hkeq⟩ := hkeq
  rw [hkeq]
  dsimp only
  cases k with
  | none => exact ⟨_, rfl⟩
  | some k0 =>
    obtain ⟨st, hst⟩ := gen_static_ok_not_bad ("Redacted" ++ input.ident) t true (hk k0 rfl)
    dsimp only [Option.map_some']
    rw [hst]
    exact ⟨_, rfl⟩

theorem expandRest_ok_build {input : DeriveInput} {ca : List MetaAttrs} {t : String}
    {k : Option EventKind}
    (hv : ∀ fields, input.data = .structNamed fields → validateFieldAttrs fields = .ok ())
    (hk : ∀ k0, k = some k0 → k0 ≠ .Redaction ∧ k0 ≠ .Presence ∧ k0 ≠ .Decrypted) :
    ∃ out, expandRest input ca t k = .ok out := by
  unfold expandRest
  have hred : ∃ redacted,
      ExpandResult.transposeOpt
        (if needs_redacted ca k then some (generate_redacted_event_content input t k)
          else none) = .ok redacted := by
    cases hn : needs_redacted ca k with
    | true =>
      rw [if_pos rfl]
      obtain ⟨art, hart⟩ := gen_redacted_ok_build hv hk
      rw [hart]
      exact ⟨some art, rfl⟩
    | false =>
      rw [if_neg (by simp)]
      exact ⟨none, rfl⟩
  obtain ⟨redacted, hred⟩ := hred
  rw [hred]
  cases k with
  | none => exact ⟨_, rfl⟩
  | some k0 =>
    obtain ⟨st, hst⟩ := gen_static_ok_not_bad input.ident t false (hk k0 rfl)
    obtain ⟨mk, hmk⟩ := gen_marker_ok_not_bad input.ident (hk k0 rfl)
    dsimp only [Option.map_some']
    rw [hst, hmk]
    exact ⟨_, rfl⟩

/-! ## The value-level redaction projection -/

theorem redact_core {α : Type} (fields : List Field) (v : List (String × α))
    (hkeys : v.map Prod.fst = fields.map Field.name)
    (hnd : (fields.map Field.name).Nodup) :
    ((fields.filter Field.isKept).map Field.stripRumaAttrs).filterMap
        (fun f => (List.lookup f.name v).map fun x => (f.name, x))
      = v.filter fun p => (keptNames fields).contains p.1 := by
  rw [List.filterMap_map]
  induction fields generalizing v with
  | nil =>
    have hv : v = [] := by simpa using hkeys
    subst hv
    rfl
  | cons f fs ih =>
    cases v with
    | nil => simp at hkeys
    | cons p v' =>
      obtain ⟨pn, px⟩ := p
      simp only [List.map_cons, List.cons.injEq] at hkeys
      obtain ⟨hpn, hkeys'⟩ := hkeys
      subst hpn
      simp only [List.map_cons, List.nodup_cons] at hnd
      obtain ⟨hnotmem, hnd'⟩ := hnd
      have hkeysub : ∀ q ∈ v', q.1 ∈ fs.map Field.name := by
        intro q hq
        rw [← hkeys']
        exact List.mem_map_of_mem Prod.fst hq
      have htail :
          (fs.filter Field.isKept).filterMap
              ((fun g => (List.lookup g.name ((f.name, px) :: v')).map fun x => (g.name, x)) ∘
                Field.stripRumaAttrs)
            = v'.filter fun q => (keptNames fs).contains q.1 := by
        rw [List.filterMap_congr (g := (fun g => (List.lookup g.name v').map fun x => (g.name, x)) ∘
          Field.stripRumaAttrs) ?_]
        · exact ih v' hkeys' hnd'
        · intro g hg
          have hgn : g.name ≠ f.name := by
            intro hEq
            apply hnotmem
            rw [← hEq]
            exact List.mem_map_of_mem Field.name (List.mem_of_mem_filter hg)
          show (List.lookup g.name ((f.name, px) :: v')).map _ = (List.lookup g.name v').map _
          rw [lookup_cons_ne hgn]
      cases hk : Field.isKept f with
      | true =>
        have hkept : keptNames (f :: fs) = f.name :: keptNames fs := by
          simp [keptNames, List.filter_cons_of_pos hk]
        have hhead :
            ((fun g => (List.lookup g.name ((f.name, px) :: v')).map fun x => (g.name, x)) ∘
              Field.stripRumaAttrs) f = some (f.name, px) := by
          show (List.lookup f.name ((f.name, px) :: v')).map _ = _
          rw [List.lookup_cons_self]
          rfl
        rw [List.filter_cons_of_pos hk, List.filterMap_cons_some hhead, htail, hkept,
          List.filter_cons_of_pos (by simp)]
        have hrt : (v'.filter fun q => (f.name :: keptNames fs).contains q.1)
            = v'.filter fun q => (keptNames fs).contains q.1 := by
          apply List.filter_congr
          intro q hq
          have hqn : q.1 ≠ f.name := by
            intro hEq
            exact hnotmem (hEq ▸ hkeysub q hq)
          simp [List.contains_cons, hqn]
        rw [hrt]
      | false =>
        have hkneg : ¬ (Field.isKept f = true) := by rw [hk]; simp
        have hkept : keptNames (f :: fs) = keptNames fs := by
          unfold keptNames
          rw [List.filter_cons_of_neg hkneg]
        have hknmem : f.name ∉ keptNames fs := by
          intro hmem
          apply hnotmem
          unfold keptNames at hmem
          obtain ⟨g, hg, hgn⟩ := List.mem_map.mp hmem
          rw [← hgn]
          exact List.mem_map_of_mem Field.name (List.mem_of_mem_filter hg)
        rw [List.filter_cons_of_neg hkneg, htail, hkept,
          List.filter_cons_of_neg (by simp [hknmem])]

/-! ## Round-trip core for the structural (de)serialization model -/

theorem lookup_ser_none {w : String} (sps : List SerdeField) (vs : List (Option Json))
    (h : w ∉ sps.map SerdeField.wire) :
    List.lookup w ((sps.zip vs).filterMap fun p => p.2.map fun j => (p.1.wire, j)) = none := by
  induction sps generalizing vs with
  | nil => rfl
  | cons sp sps' ih =>
    cases vs with
    | nil => rfl
    | cons u vs' =>
      simp only [List.map_cons, List.mem_cons, not_or] at h
      obtain ⟨hw, h'⟩ := h
      cases u with
      | none => exact ih vs' h'
      | some j => exact (lookup_cons_ne hw).trans (ih vs' h')

theorem deserFields_cons_irrelevant {w : String} {j : Json}
    (M : List (String × Json)) (specs : List SerdeField)
    (h : w ∉ specs.map SerdeField.wire) :
    deserFields ((w, j) :: M) specs = deserFields M specs := by
  induction specs with
  | nil => rfl
  | cons sp sps ih =>
    simp only [List.map_cons, List.mem_cons, not_or] at h
    obtain ⟨hw, h'⟩ := h
    have hdf : deserField ((w, j) :: M) sp = deserField M sp := by
      unfold deserField
      rw [lookup_cons_ne (fun hEq => hw hEq.symm)]
    rw [deserFields, deserFields, hdf, ih h']

theorem deser_ser_core : ∀ (specs : List SerdeField) (vals : List (Option Json)),
    vals.length = specs.length →
    (specs.map SerdeField.wire).Nodup →
    (∀ p ∈ specs.zip vals, p.1.optional = false → p.2.isSome = true) →
    deserFields ((specs.zip vals).filterMap fun p => p.2.map fun j => (p.1.wire, j)) specs
      = .ok vals := by
  intro specs
  induction specs with
  | nil =>
    intro vals hlen _ _
    have : vals = [] := List.length_eq_zero.mp hlen
    subst this
    rfl
  | cons sp sps ih =>
    intro vals hlen hnd hvalid
    cases vals with
    | nil => simp at hlen
    | cons v vs =>
      simp only [List.length_cons, Nat.succ.injEq] at hlen
      simp only [List.map_cons, List.nodup_cons] at hnd
      obtain ⟨hw, hnd'⟩ := hnd
      have hvalid' : ∀ p ∈ sps.zip vs, p.1.optional = false → p.2.isSome = true := by
        intro p hp
        exact hvalid p (by rw [List.zip_cons_cons]; exact List.mem_cons_of_mem _ hp)
      cases v with
      | some j =>
        have hhd : deserField ((sp.wire, j) ::
            ((sps.zip vs).filterMap fun p => p.2.map fun j => (p.1.wire, j))) sp
            = .ok (some j) := by
          unfold deserField
          rw [List.lookup_cons_self]
        have h1 : deserFields ((sp.wire, j) ::
            ((sps.zip vs).filterMap fun p => p.2.map fun j => (p.1.wire, j))) (sp :: sps)
            = .ok (some j :: vs) := by
          rw [deserFields, hhd, deserFields_cons_irrelevant _ _ hw, ih vs hlen hnd' hvalid']
        exact h1
      | none =>
        have hopt : sp.optional = true := by
          cases hso : sp.optional with
          | true => rfl
          | false =>
            have := hvalid (sp, none) (by rw [List.zip_cons_cons]; exact List.mem_cons_self _ _) hso
            simp at this
        have hhd : deserField ((sps.zip vs).filterMap fun p => p.2.map fun j => (p.1.wire, j)) sp
            = .ok none := by
          unfold deserField
          rw [lookup_ser_none sps vs hw, hopt]
          rfl
        have h1 : deserFields ((sps.zip vs).filterMap fun p => p.2.map fun j => (p.1.wire, j))
            (sp :: sps) = .ok (none :: vs) := by
          rw [deserFields, hhd, ih vs hlen hnd' hvalid']
        exact h1

/-! ## Bridging the expansion output to the authored schema -/

theorem expand_ok_eventContent {input : DeriveInput} {out : Expanded} {t : String}
    (h : expand_event_content input = .ok out) (ht : declaredTypes input = [t]) :
    out.eventContent = ⟨t⟩ := by
  obtain ⟨ca, t', hca, ht', hrest⟩ := expand_ok_elim h
  have htt : t' = t := by
    have h2 : ca.filterMap MetaAttrs.get_event_type = declaredTypes input := collect_type_proj hca
    rw [ht', ht] at h2
    injection h2 with h2
  subst htt
  rcases hrest with ⟨_, hr⟩ | ⟨k, _, hr⟩
  · exact (expandRest_ok_elim hr).1
  · exact (expandRest_ok_elim hr).1

theorem expand_ok_redacted_elim {input : DeriveInput} {out : Expanded} {t : String}
    {art : RedactedArtifact}
    (h : expand_event_content input = .ok out) (ht : declaredTypes input = [t])
    (hart : out.redacted = some art) :
    ∃ k, declaredKinds input = [k] ∧ (k = .Message ∨ k = .State) ∧
      generate_redacted_event_content input t (some k) = .ok art := by
  obtain ⟨ca, t', hca, ht', hrest⟩ := expand_ok_elim h
  have htt : t' = t := by
    have h2 : ca.filterMap MetaAttrs.get_event_type = declaredTypes input := collect_type_proj hca
    rw [ht', ht] at h2
    injection h2 with h2
  subst htt
  rcases hrest with ⟨hk0, hr⟩ | ⟨k, hk1, hr⟩
  · obtain ⟨_, hred, _⟩ := expandRest_ok_elim hr
    rcases hred with ⟨hn, art', hg, hsome⟩ | ⟨hn, hnone⟩
    · exact absurd hn (by simp [needs_redacted])
    · rw [hnone] at hart
      cases hart
  · obtain ⟨_, hred, _⟩ := expandRest_ok_elim hr
    rcases hred with ⟨hn, art', hg, hsome⟩ | ⟨hn, hnone⟩
    · rw [hart] at hsome
      injection hsome with hsome
      subst hsome
      have hkMS : k = .Message ∨ k = .State := by
        unfold needs_redacted at hn
        cases k <;> simp_all
      have hdk : declaredKinds input = [k] := by
        have h2 : ca.filterMap MetaAttrs.get_event_kind = declaredKinds input :=
          collect_kind_proj hca
        rw [hk1] at h2
        exact h2.symm
      exact ⟨k, hdk, hkMS, hg⟩
    · rw [hnone] at hart
      cases hart

theorem gen_static_false_props {id t : String} {k : EventKind} {st : StaticImpl}
    (h : generate_static_event_content_impl id k false t = .ok st) :
    st.TYPE = t ∧ st.KIND.redactedFlag = false := by
  cases k <;> simp only [generate_static_event_content_impl] at h <;>
    first
      | (injection h with h; subst h; exact ⟨rfl, rfl⟩)
      | exact absurd h (by simp)

theorem gen_static_true_props {id t : String} {k : EventKind} {st : StaticImpl}
    (hk : k = .Message ∨ k = .State)
    (h : generate_static_event_content_impl id k true t = .ok st) :
    st.TYPE = t ∧ st.KIND.redactedFlag = true := by
  rcases hk with rfl | rfl <;> simp only [generate_static_event_content_impl] at h <;>
    injection h with h <;> subst h <;> exact ⟨rfl, rfl⟩

/-! ## Claim theorems -/

/-- C10: `Unsigned::is_empty` returns `true` iff `age` and `transaction_id` are
both `None`; it does not inspect `relations` (values differing only in
`relations` agree, and a value with `relations = Some r` but the other two
fields `None` is still reported empty), and `Unsigned::new()` is empty. -/
theorem unsigned_is_empty_spec (R : Type) (a : Option Int) (tx : Option String)
    (rel rel' : Option R) :
    ((Unsigned.mk a tx rel).is_empty = true ↔ (a = none ∧ tx = none)) ∧
    (Unsigned.mk a tx rel).is_empty = (Unsigned.mk a tx rel').is_empty ∧
    (Unsigned.mk none none rel).is_empty = true ∧
    (Unsigned.new : Unsigned R).is_empty = true := by
  refine ⟨?_, rfl, rfl, rfl⟩
  simp [Unsigned.is_empty, Option.isNone_iff_eq_none]

/-- C4: for every compiled content type, `from_parts(ev_type, payload)` first
compares `ev_type` against the compiled type string: on mismatch it returns the
"expected X, found Y" error without consulting the payload or the structural
deserializer, and on match it returns exactly what structural deserialization
of the payload returns (propagating failures). -/
theorem from_parts_type_check_first {P α : Type} (input : DeriveInput) (out : Expanded)
    (t : String) (deser : P → Except String α) (ev : String) (payload : P)
    (h : expand_event_content input = .ok out) (ht : declaredTypes input = [t]) :
    (ev ≠ t → out.eventContent.from_parts deser ev payload =
      .error ("expected event type `" ++ t ++ "`, found `" ++ ev ++ "`")) ∧
    out.eventContent.from_parts deser t payload = deser payload := by
  rw [expand_ok_eventContent h ht]
  constructor
  · intro hne
    simp [EventContentImpl.from_parts, hne]
  · simp [EventContentImpl.from_parts]

/-- Witness for C4 at the compiled `m.key.verification.done` message schema. -/
theorem from_parts_type_check_first_witness :
    (outW2.eventContent.from_parts (fun _ : Json => Except.ok (0 : Nat)) "m.wrong.type"
      Json.null = .error ("expected event type `m.key.verification.done`, found `m.wrong.type`")) ∧
    (outW2.eventContent.from_parts (fun _ : Json => Except.ok (0 : Nat))
      "m.key.verification.done" Json.null = .ok 0) := by
  have h := from_parts_type_check_first inW2 outW2 ("m.key.verification.done")
    (fun _ : Json => Except.ok (0 : Nat)) "m.wrong.type" Json.null rfl rfl
  exact ⟨(h.1 (by decide)).trans rfl, h.2⟩

/-- C2: for every generated redacted type, `empty(ev_type)` first checks
`ev_type` against the compiled type string and fails with an error carrying
both strings on mismatch; on match it succeeds with the canonical empty value
when the kept-field set is empty and always fails with "this redacted event
has fields that cannot be constructed" when it is non-empty. -/
theorem redacted_empty_behavior (α : Type) (input : DeriveInput) (out : Expanded)
    (art : RedactedArtifact) (t : String)
    (h : expand_event_content input = .ok out) (ht : declaredTypes input = [t])
    (hart : out.redacted = some art) :
    (∀ s, s ≠ t → (art.empty s : Except String (List (String × α))) =
      .error ("expected event type `" ++ t ++ "`, found `" ++ s ++ "`")) ∧
    (art.kept_redacted_fields = [] →
      (art.empty t : Except String (List (String × α))) = .ok []) ∧
    (art.kept_redacted_fields ≠ [] →
      (art.empty t : Except String (List (String × α))) =
        .error ("this redacted event has fields that cannot be constructed")) := by
  obtain ⟨k, _, _, hg⟩ := expand_ok_redacted_elim h ht hart
  have hec : art.eventContent = ⟨t⟩ := (gen_redacted_ok_elim hg).1
  refine ⟨?_, ?_, ?_⟩
  · intro s hs
    unfold RedactedArtifact.empty
    rw [hec]
    simp [hs]
  · intro hk
    unfold RedactedArtifact.empty
    rw [hec]
    simp [hk]
  · intro hk
    unfold RedactedArtifact.empty
    rw [hec]
    simp [hk, List.isEmpty_iff]

/-- Witness for C2: the kept-empty `m.key.verification.done` redacted type
succeeds on its own type string and rejects others; the kept-non-empty
`m.room.test` redacted type always fails to construct from empty. -/
theorem redacted_empty_behavior_witness :
    (artW2.empty ("m.key.verification.done") : Except String (List (String × Unit))) = .ok [] ∧
    (artW2.empty ("m.other.type") : Except String (List (String × Unit))) =
      .error ("expected event type `m.key.verification.done`, found `m.other.type`") ∧
    (artW1.empty ("m.room.test") : Except String (List (String × Unit))) =
      .error ("this redacted event has fields that cannot be constructed") := by
  have h2 := redacted_empty_behavior Unit inW2 outW2 artW2 ("m.key.verification.done") rfl rfl rfl
  have h1 := redacted_empty_behavior Unit inW1 outW1 artW1 ("m.room.test") rfl rfl rfl
  exact ⟨h2.2.1 rfl, (h2.1 ("m.other.type") (by decide)).trans rfl, h1.2.2 (by decide)⟩

/-- C8: `event_type()` returns exactly the declared type literal independent of
the instance, the `StaticEventContent` descriptor's `TYPE` equals that string,
and the `KIND` redacted sub-flag is `false` for the original type and `true`
for the generated redacted counterpart. -/
theorem event_type_and_static_descriptor (input : DeriveInput) (out : Expanded) (t : String)
    (h : expand_event_content input = .ok out) (ht : declaredTypes input = [t]) :
    (∀ (α : Type) (self : α), out.eventContent.event_type self = t) ∧
    (∀ st, out.staticImpl = some st → st.TYPE = t ∧ st.KIND.redactedFlag = false) ∧
    (∀ art, out.redacted = some art →
      (∀ (α : Type) (self : α), art.eventContent.event_type self = t) ∧
      ∃ st, art.staticImpl = some st ∧ st.TYPE = t ∧ st.KIND.redactedFlag = true) := by
  have hec := expand_ok_eventContent h ht
  refine ⟨?_, ?_, ?_⟩
  · intro α self
    rw [EventContentImpl.event_type, hec]
  · intro st hst
    obtain ⟨ca, t', hca, ht', hrest⟩ := expand_ok_elim h
    have htt : t' = t := by
      have h2 : ca.filterMap MetaAttrs.get_event_type = declaredTypes input :=
        collect_type_proj hca
      rw [ht', ht] at h2
      injection h2 with h2
    subst htt
    rcases hrest with ⟨_, hr⟩ | ⟨k, _, hr⟩ <;>
      obtain ⟨_, _, hstat⟩ := expandRest_ok_elim hr <;>
      rcases hstat with ⟨_, hnone, _⟩ | ⟨k0, st', mk, _, hgen, hsome, _, _⟩
    · rw [hnone] at hst
      cases hst
    · rw [hst] at hsome
      injection hsome with hsome
      subst hsome
      exact gen_static_false_props hgen
    · rw [hnone] at hst
      cases hst
    · rw [hst] at hsome
      injection hsome with hsome
      subst hsome
      exact gen_static_false_props hgen
  · intro art hart
    obtain ⟨k, _, hkMS, hg⟩ := expand_ok_redacted_elim h ht hart
    obtain ⟨hecr, _, hstat⟩ := gen_redacted_ok_elim hg
    refine ⟨fun α self => by rw [EventContentImpl.event_type, hecr], ?_⟩
    rcases hstat with ⟨hknone, _⟩ | ⟨k0, st, hksome, hgen, hsome⟩
    · cases hknone
    · injection hksome with hksome
      subst hksome
      obtain ⟨h1, h2⟩ := gen_static_true_props hkMS hgen
      exact ⟨st, hsome, h1, h2⟩

/-- Witness for C8 at the `m.key.verification.done` message schema. -/
theorem event_type_and_static_descriptor_witness :
    outW2.eventContent.event_type () = "m.key.verification.done" ∧
    (∃ st, outW2.staticImpl = some st ∧
      st.TYPE = "m.key.verification.done" ∧ st.KIND.redactedFlag = false) ∧
    (∃ st, artW2.staticImpl = some st ∧
      st.TYPE = "m.key.verification.done" ∧ st.KIND.redactedFlag = true) := by
  have h := event_type_and_static_descriptor inW2 outW2 ("m.key.verification.done") rfl rfl
  refine ⟨h.1 Unit (), ⟨⟨.Message false, "m.key.verification.done"⟩, rfl, ?_⟩, ?_⟩
  · exact h.2.1 ⟨.Message false, "m.key.verification.done"⟩ rfl
  · exact (h.2.2 artW2 rfl).2

/-- C1: for every Message/State content type compiled without `custom_redacted`,
`redact(original, room_version)` is a total pure projection: the redacted type's
fields are exactly the fields marked `skip_redaction` (names and types
unchanged), the redacted value is the sublist of the original's fields at the
marked names (values moved unchanged, in declaration order), and the room
version does not affect the result. -/
theorem redact_projects_kept_fields (input : DeriveInput) (out : Expanded)
    (fields : List Field) (art : RedactedArtifact)
    (h : expand_event_content input = .ok out)
    (hd : input.data = .structNamed fields)
    (hart : out.redacted = some art) :
    (art.kept_redacted_fields.map (fun f => (f.name, f.ty)) =
      (fields.filter Field.isKept).map fun f => (f.name, f.ty)) ∧
    (∀ (α : Type) (v : List (String × α)) (ver : RoomVersionId),
      v.map Prod.fst = fields.map Field.name →
      (fields.map Field.name).Nodup →
      art.redact v ver = v.filter fun p => (keptNames fields).contains p.1) ∧
    (∀ (α : Type) (v : List (String × α)) (ver ver' : RoomVersionId),
      art.redact v ver = art.redact v ver') := by
  obtain ⟨ca, t, hca, ht', hrest⟩ := expand_ok_elim h
  have hg : ∃ kOpt, generate_redacted_event_content input t kOpt = .ok art := by
    rcases hrest with ⟨_, hr⟩ | ⟨k, _, hr⟩ <;>
      obtain ⟨_, hred, _⟩ := expandRest_ok_elim hr <;>
      rcases hred with ⟨_, art', hg', hsome⟩ | ⟨_, hnone⟩
    · rw [hart] at hsome
      injection hsome with hsome
      exact ⟨none, hsome ▸ hg'⟩
    · rw [hnone] at hart
      cases hart
    · rw [hart] at hsome
      injection hsome with hsome
      exact ⟨_, hsome ▸ hg'⟩
    · rw [hnone] at hart
      cases hart
  obtain ⟨kOpt, hg⟩ := hg
  obtain ⟨_, hkept, _⟩ := gen_redacted_ok_elim hg
  have hkeptf : art.kept_redacted_fields =
      (fields.filter Field.isKept).map Field.stripRumaAttrs := by
    rcases hkept with ⟨fields', hd', _, hk⟩ | ⟨hd', _⟩
    · rw [hd] at hd'
      injection hd' with hd'
      rw [hk, hd']
    · rw [hd] at hd'
      cases hd'
  refine ⟨?_, ?_, ?_⟩
  · rw [hkeptf, List.map_map]
    rfl
  · intro α v ver hkeys hnd
    unfold RedactedArtifact.redact
    rw [hkeptf]
    exact redact_core fields v hkeys hnd
  · intro α v ver ver'
    rfl

/-- Witness for C1 at a state schema keeping `creator` and dropping `topic`. -/
theorem redact_projects_kept_fields_witness :
    artW1.redact [("creator", (1 : Nat)), ("topic", 2)] "1" = [("creator", 1)] ∧
    artW1.redact [("creator", (1 : Nat)), ("topic", 2)] "1"
      = artW1.redact [("creator", (1 : Nat)), ("topic", 2)] "9" := by
  have h := redact_projects_kept_fields inW1 outW1 fieldsW1 artW1 rfl rfl rfl
  refine ⟨?_, h.2.2 Nat [("creator", 1), ("topic", 2)] "1" "9"⟩
  exact (h.2.1 Nat [("creator", 1), ("topic", 2)] "1" rfl (by decide)).trans rfl

/-- C3: a compiled schema yields a redacted counterpart (together with its
`RedactContent` impl and all other redaction artifacts, bundled in
`Expanded.redacted`) if and only if it declares kind `Message` or `State` and
does not carry the `custom_redacted` opt-out. -/
theorem redacted_generated_iff_message_or_state (input : DeriveInput) (out : Expanded)
    (h : expand_event_content input = .ok out) :
    (out.redacted.isSome = true ↔
      (schemaHasCustom input = false ∧
        (declaredKinds input = [.Message] ∨ declaredKinds input = [.State]))) := by
  obtain ⟨ca, t, hca, ht, hrest⟩ := expand_ok_elim h
  have hkinds : ca.filterMap MetaAttrs.get_event_kind = declaredKinds input :=
    collect_kind_proj hca
  have hcust : ca.any MetaAttrs.is_custom = schemaHasCustom input :=
    collect_custom_proj hca
  rcases hrest with ⟨hk0, hr⟩ | ⟨k, hk1, hr⟩
  · have hdk : declaredKinds input = [] := by rw [← hkinds, hk0]
    obtain ⟨_, hred, _⟩ := expandRest_ok_elim hr
    rcases hred with ⟨hn, _, _, _⟩ | ⟨_, hnone⟩
    · exact absurd hn (by simp [needs_redacted])
    · rw [hnone, hdk]
      simp
  · have hdk : declaredKinds input = [k] := by rw [← hkinds, hk1]
    obtain ⟨_, hred, _⟩ := expandRest_ok_elim hr
    rcases hred with ⟨hn, art, hg, hsome⟩ | ⟨hn, hnone⟩
    · unfold needs_redacted at hn
      rw [Bool.and_eq_true] at hn
      obtain ⟨hc, hm⟩ := hn
      have hcf : schemaHasCustom input = false := by
        rw [← hcust]
        simpa using hc
      have hkMS : k = .Message ∨ k = .State := by
        cases k <;> simp_all
      rw [hsome, hdk, hcf]
      rcases hkMS with rfl | rfl <;> simp
    · rw [hnone, hdk]
      simp only [Option.isSome_none]
      constructor
      · exact fun hF => absurd hF (by decide)
      · rintro ⟨hcf, hMS⟩
        exfalso
        unfold needs_redacted at hn
        rw [← hcust] at hcf
        rw [hcf] at hn
        simp only [Bool.not_false, Bool.true_and] at hn
        rcases hMS with hEq | hEq <;> injection hEq with hEq <;> rw [hEq] at hn <;> cases hn

/-- Witness for C3 at the `m.key.verification.done` message schema. -/
theorem redacted_generated_iff_message_or_state_witness :
    outW2.redacted.isSome = true ↔
      (schemaHasCustom inW2 = false ∧
        (declaredKinds inW2 = [.Message] ∨ declaredKinds inW2 = [.State])) :=
  redacted_generated_iff_message_or_state inW2 outW2 rfl

/-- C9: for every compiled content type and every valid instance (encoded as
the per-field values of a serde struct shape with distinct wire names and all
required fields present), `from_parts(event_type(), serialize(c))` succeeds and
returns the instance unchanged, including optional fields both present and
absent. -/
theorem from_parts_serialize_roundtrip (input : DeriveInput) (out : Expanded)
    (specs : List SerdeField) (vals : List (Option Json)) (α : Type) (self : α)
    (h : expand_event_content input = .ok out)
    (hlen : vals.length = specs.length)
    (hnd : (specs.map SerdeField.wire).Nodup)
    (hvalid : ∀ p ∈ specs.zip vals, p.1.optional = false → p.2.isSome = true) :
    out.eventContent.from_parts (deserializeStruct specs)
      (out.eventContent.event_type self) (serializeStruct specs vals) = .ok vals := by
  have hexp : expand_event_content input = .ok out := h
  unfold EventContentImpl.from_parts EventContentImpl.event_type
  rw [if_neg (by simp)]
  exact deser_ser_core specs vals hlen hnd hvalid

/-- Witness for C9: round trip through a shape with one required field present
and one optional field absent, on the compiled `m.key.verification.done` type. -/
theorem from_parts_serialize_roundtrip_witness :
    outW2.eventContent.from_parts (deserializeStruct specsW)
      (outW2.eventContent.event_type ()) (serializeStruct specsW valsW) = .ok valsW :=
  from_parts_serialize_roundtrip inW2 outW2 specsW valsW Unit () rfl rfl
    (by decide) (by decide)

/-- C5: a schema declaring one of the three non-derivable kinds (`Redaction`,
`Presence`, `Decrypted`) is rejected with a `syn::Error` (never a panic) in
every case; when the bad kind token is reached it is the error listing the
valid kinds, independent of the field shape. -/
theorem non_derivable_kind_rejected (input : DeriveInput) (s : String)
    (hs : s = "Redaction" ∨ s = "Presence" ∨ s = "Decrypted") :
    ((∃ a ∈ rumaEventAttrs input, MetaToken.kindTok s ∈ a.tokens) →
      ∃ e, expand_event_content input = .err e) ∧
    (∀ (id t : String) (d : Data),
      expand_event_content ⟨id, [⟨"ruma_event", [.typeTok t, .kindTok s]⟩], d⟩ =
        .err ("valid event kinds are GlobalAccountData, RoomAccountData, EphemeralRoom, Message, State, ToDevice, found `" ++ s ++ "`")) := by
  constructor
  · rintro ⟨a, ha, htk⟩
    have hpe : ∃ e0, EventMeta.parse (.kindTok s) = .error e0 := by
      rcases hs with rfl | rfl | rfl <;> exact ⟨_, rfl⟩
    obtain ⟨e0, hpe0⟩ := hpe
    obtain ⟨e1, hparse⟩ := MetaAttrs.parse_err_of_mem htk hpe0
    obtain ⟨e2, hcollect⟩ := collect_err_of_mem ha hparse
    refine ⟨e2, ?_⟩
    unfold expand_event_content
    rw [hcollect]
  · intro id t d
    rcases hs with rfl | rfl | rfl <;> rfl

/-- Witness for C5 at a concrete `kind = Redaction` schema. -/
theorem non_derivable_kind_rejected_witness :
    (∃ e, expand_event_content inC5 = .err e) ∧
    expand_event_content inC5 =
      .err ("valid event kinds are GlobalAccountData, RoomAccountData, EphemeralRoom, Message, State, ToDevice, found `Redaction`") := by
  have h := non_derivable_kind_rejected inC5 ("Redaction") (.inl rfl)
  refine ⟨h.1 ⟨⟨"ruma_event", [.typeTok ("m.x"), .kindTok ("Redaction")]⟩, by decide, by decide⟩, ?_⟩
  exact (h.2 ("Foo") "m.x" .otherData).trans rfl

/-- C6 counterexample: a `ToDevice` schema whose field carries the unrecognized
`ruma_event` token `bogus` compiles successfully — field attributes are never
validated off the redaction path, so the claimed hard error does not occur. -/
theorem field_attr_unchecked_off_redaction_path :
    (expand_event_content inC6).isOk = true ∧
    (Attribute.parseArgsEventMeta ⟨"ruma_event", [.otherTok ("bogus")]⟩).toOption = none :=
  ⟨rfl, rfl⟩

/-- Helper for the redaction-path direction: with the schema parsed to kind
Message or State and no `custom_redacted`, an erroring `ruma_event` field
attribute aborts the expansion. -/
theorem field_attr_error_on_redaction_path (input : DeriveInput) (fields : List Field)
    (ca : List MetaAttrs) (t : String) (k : EventKind)
    (hd : input.data = .structNamed fields)
    (hca : collectParsedAttrs (rumaEventAttrs input) = .ok ca)
    (ht : ca.filterMap MetaAttrs.get_event_type = [t])
    (hk : ca.filterMap MetaAttrs.get_event_kind = [k])
    (hMS : k = .Message ∨ k = .State)
    (hnc : ca.any MetaAttrs.is_custom = false)
    (hbad : ∃ f ∈ fields, ∃ a ∈ f.attrs, a.path = "ruma_event" ∧
      ∃ e0, a.parseArgsEventMeta = .error e0) :
    ∃ e, expand_event_content input = .err e := by
  have hval : ∃ e, validateFieldAttrs fields = .error e := by
    obtain ⟨f, hf, a, haf, hpath, e0, herr⟩ := hbad
    have hmem : a ∈ ((fields.map Field.attrs).flatten.filter fun a =>
        a.path == "ruma_event") := by
      rw [List.mem_filter]
      refine ⟨List.mem_flatten.mpr ⟨f.attrs, List.mem_map_of_mem Field.attrs hf, haf⟩, ?_⟩
      rw [beq_iff_eq]
      exact hpath
    have hsome : ((fields.map Field.attrs).flatten.filter fun a =>
        a.path == "ruma_event").findSome? (fun a =>
          match Attribute.parseArgsEventMeta a with
          | .error e => some e
          | .ok _ => none) ≠ none := by
      rw [Ne, List.findSome?_eq_none_iff]
      intro hall
      have := hall a hmem
      rw [herr] at this
      cases this
    unfold validateFieldAttrs
    cases hfs : ((fields.map Field.attrs).flatten.filter fun a =>
        a.path == "ruma_event").findSome? (fun a =>
          match Attribute.parseArgsEventMeta a with
          | .error e => some e
          | .ok _ => none) with
    | none => exact absurd hfs hsome
    | some e => exact ⟨e, rfl⟩
  obtain ⟨e, hve⟩ := hval
  have hneeds : needs_redacted ca (some k) = true := by
    unfold needs_redacted
    rw [hnc]
    rcases hMS with rfl | rfl <;> rfl
  have hgen : generate_redacted_event_content input t (some k) = .err e := by
    unfold generate_redacted_event_content
    rw [hd]
    dsimp only
    rw [hve]
  have hrest : expandRest input ca t (some k) = .err e := by
    unfold expandRest
    rw [if_pos hneeds, hgen]
    rfl
  refine ⟨e, ?_⟩
  unfold expand_event_content
  rw [hca]
  dsimp only
  rw [ht]
  dsimp only
  rw [hk]
  dsimp only
  exact hrest

/-- Helper: when no redacted counterpart is needed, the remainder of the
expansion never reads the input's data (the struct's fields and their
attributes), so two inputs differing only in their data expand identically. -/
theorem expandRest_data_irrelevant {ca : List MetaAttrs} {t : String} {k : Option EventKind}
    (ident : String) (attrs : List Attribute) (d d' : Data)
    (h : needs_redacted ca k = false) :
    expandRest ⟨ident, attrs, d⟩ ca t k = expandRest ⟨ident, attrs, d'⟩ ca t k := by
  have hc : ¬(needs_redacted ca k = true) := by simp [h]
  unfold expandRest
  rw [if_neg hc, if_neg hc]

/-- C6 (amended): a field carrying an unrecognized token in the `ruma_event`
namespace causes a hard compilation error only on the redaction path: when the
schema declares kind `Message` or `State` without `custom_redacted`, any
erroring `ruma_event` field attribute aborts the expansion with an error; for
every other schema (no kind, a non-Message/State kind, or `custom_redacted`
set) the expansion result does not depend on the struct data at all, so field
attributes are never validated and such a token is silently ignored. -/
theorem field_attr_validation_iff_redaction_path (ident : String) (attrs : List Attribute) :
    (∀ (fields : List Field) (ca : List MetaAttrs) (t : String) (k : EventKind),
      collectParsedAttrs (rumaEventAttrs ⟨ident, attrs, .structNamed fields⟩) = .ok ca →
      ca.filterMap MetaAttrs.get_event_type = [t] →
      ca.filterMap MetaAttrs.get_event_kind = [k] →
      (k = .Message ∨ k = .State) →
      ca.any MetaAttrs.is_custom = false →
      (∃ f ∈ fields, ∃ a ∈ f.attrs, a.path = "ruma_event" ∧
        ∃ e0, a.parseArgsEventMeta = .error e0) →
      ∃ e, expand_event_content ⟨ident, attrs, .structNamed fields⟩ = .err e) ∧
    (∀ d d' : Data,
      ¬(schemaHasCustom ⟨ident, attrs, d⟩ = false ∧
          (declaredKinds ⟨ident, attrs, d⟩ = [.Message] ∨
            declaredKinds ⟨ident, attrs, d⟩ = [.State])) →
      expand_event_content ⟨ident, attrs, d⟩ = expand_event_content ⟨ident, attrs, d'⟩) := by
  constructor
  · intro fields ca t k hca ht hk hMS hnc hbad
    exact field_attr_error_on_redaction_path ⟨ident, attrs, .structNamed fields⟩ fields ca t k
      rfl hca ht hk hMS hnc hbad
  · intro d d' hns
    cases hca : collectParsedAttrs (rumaEventAttrs ⟨ident, attrs, d⟩) with
    | error e =>
      have hca' : collectParsedAttrs (rumaEventAttrs ⟨ident, attrs, d'⟩) = .error e := hca
      unfold expand_event_content
      rw [hca, hca']
    | ok ca =>
      have hca' : collectParsedAttrs (rumaEventAttrs ⟨ident, attrs, d'⟩) = .ok ca := hca
      unfold expand_event_content
      rw [hca, hca']
      dsimp only
      cases ht : ca.filterMap MetaAttrs.get_event_type with
      | nil => rfl
      | cons t ts =>
        cases ts with
        | cons y ys => rfl
        | nil =>
          dsimp only
          cases hk : ca.filterMap MetaAttrs.get_event_kind with
          | nil =>
            dsimp only
            exact expandRest_data_irrelevant ident attrs d d' (by simp [needs_redacted])
          | cons k ks =>
            cases ks with
            | cons y ys => rfl
            | nil =>
              dsimp only
              refine expandRest_data_irrelevant ident attrs d d' ?_
              have hcust : ca.any MetaAttrs.is_custom = schemaHasCustom ⟨ident, attrs, d⟩ :=
                collect_custom_proj hca
              have hkinds : ca.filterMap MetaAttrs.get_event_kind =
                  declaredKinds ⟨ident, attrs, d⟩ := collect_kind_proj hca
              unfold needs_redacted
              cases hcu : ca.any MetaAttrs.is_custom with
              | true => rfl
              | false =>
                have hsc : schemaHasCustom ⟨ident, attrs, d⟩ = false := by
                  rw [← hcust]
                  exact hcu
                have hdk : declaredKinds ⟨ident, attrs, d⟩ = [k] := by
                  rw [← hkinds, hk]
                have hknms : k ≠ .Message ∧ k ≠ .State := by
                  constructor
                  · intro hEq
                    subst hEq
                    exact hns ⟨hsc, .inl hdk⟩
                  · intro hEq
                    subst hEq
                    exact hns ⟨hsc, .inr hdk⟩
                cases k with
                | Message => exact absurd rfl hknms.1
                | State => exact absurd rfl hknms.2
                | GlobalAccountData => rfl
                | RoomAccountData => rfl
                | Ephemeral => rfl
                | ToDevice => rfl
                | Redaction => rfl
                | Presence => rfl
                | Decrypted => rfl

/-- Witness for C6 (amended): the malformed field attribute on a `Message`
schema is rejected, while the identical malformed field attribute on a
`ToDevice` schema is ignored — the expansion there equals the expansion of the
same schema with no struct data at all. -/
theorem field_attr_validation_iff_redaction_path_witness :
    (∃ e, expand_event_content inC6b = .err e) ∧
    expand_event_content inC6 =
      expand_event_content ⟨"Foo", [⟨"ruma_event", [.typeTok ("m.x"), .kindTok ("ToDevice")]⟩],
        .otherData⟩ := by
  constructor
  · exact (field_attr_validation_iff_redaction_path ("Foo")
      [⟨"ruma_event", [.typeTok ("m.x"), .kindTok ("Message")]⟩]).1
      [⟨"foo", "String", [⟨"ruma_event", [.otherTok ("bogus")]⟩]⟩]
      [[.Type' ("m.x"), .Kind .Message]] "m.x" .Message rfl rfl rfl (.inl rfl) rfl
      ⟨⟨"foo", "String", [⟨"ruma_event", [.otherTok ("bogus")]⟩]⟩, by decide,
        ⟨"ruma_event", [.otherTok ("bogus")]⟩, by decide, rfl,
        "expected one of: `type`, `kind`, `skip_redaction`, `custom_redacted`, found `bogus`", rfl⟩
  · exact (field_attr_validation_iff_redaction_path ("Foo")
      [⟨"ruma_event", [.typeTok ("m.x"), .kindTok ("ToDevice")]⟩]).2
      (.structNamed [⟨"foo", "String", [⟨"ruma_event", [.otherTok ("bogus")]⟩]⟩])
      .otherData (by decide)

/-- C7 counterexample: with two event type attributes the error message is
"multiple event type attribute found, there can only be one" — the claimed
message "multiple event type attributes found" is not even a substring of it. -/
theorem multiple_type_attr_message_cex :
    expand_event_content inC7 = .err ("multiple event type attribute found, there can only be one") ∧
    ¬ List.IsInfix ("multiple event type attributes found".data)
        ("multiple event type attribute found, there can only be one".data) :=
  ⟨rfl, by decide⟩

/-- C7 (amended): with all `ruma_event` attributes parseable, a schema with no
type attribute fails with the "no event type attribute found, add ..." error, a
schema with more than one type attribute fails with "multiple event type
attribute found, there can only be one", a schema with one type attribute and
more than one kind attribute fails with "multiple event kind attribute found,
there can only be one", and with exactly one type attribute and at most one
kind attribute (and no failing field validation) compilation proceeds. -/
theorem schema_attr_count_validation (input : DeriveInput) (ca : List MetaAttrs)
    (hca : collectParsedAttrs (rumaEventAttrs input) = .ok ca) :
    (declaredTypes input = [] →
      expand_event_content input = .err ("no event type attribute found, add `#[ruma_event(type = \"any.room.event\", kind = Kind)]` below the event content derive")) ∧
    (2 ≤ (declaredTypes input).length →
      expand_event_content input = .err ("multiple event type attribute found, there can only be one")) ∧
    (∀ t, declaredTypes input = [t] → 2 ≤ (declaredKinds input).length →
      expand_event_content input = .err ("multiple event kind attribute found, there can only be one")) ∧
    (∀ t, declaredTypes input = [t] → (declaredKinds input).length ≤ 1 →
      (∀ fields, input.data = .structNamed fields → validateFieldAttrs fields = .ok ()) →
      (expand_event_content input).isOk = true) := by
  have htypes : ca.filterMap MetaAttrs.get_event_type = declaredTypes input :=
    collect_type_proj hca
  have hkinds : ca.filterMap MetaAttrs.get_event_kind = declaredKinds input :=
    collect_kind_proj hca
  refine ⟨?_, ?_, ?_, ?_⟩
  · intro hzero
    have h0 : ca.filterMap MetaAttrs.get_event_type = [] := by rw [htypes, hzero]
    unfold expand_event_content
    rw [hca]
    dsimp only
    rw [h0]
  · intro hmulti
    rcases hT : declaredTypes input with _ | ⟨x, _ | ⟨y, ys⟩⟩
    · rw [hT] at hmulti
      simp at hmulti
    · rw [hT] at hmulti
      simp at hmulti
    · have h2 : ca.filterMap MetaAttrs.get_event_type = x :: y :: ys := by rw [htypes, hT]
      unfold expand_event_content
      rw [hca]
      dsimp only
      rw [h2]
  · intro t hone hkmulti
    have h1 : ca.filterMap MetaAttrs.get_event_type = [t] := by rw [htypes, hone]
    rcases hK : declaredKinds input with _ | ⟨x, _ | ⟨y, ys⟩⟩
    · rw [hK] at hkmulti
      simp at hkmulti
    · rw [hK] at hkmulti
      simp at hkmulti
    · have h2 : ca.filterMap MetaAttrs.get_event_kind = x :: y :: ys := by rw [hkinds, hK]
      unfold expand_event_content
      rw [hca]
      dsimp only
      rw [h1]
      dsimp only
      rw [h2]
  · intro t hone hklen hfields
    have h1 : ca.filterMap MetaAttrs.get_event_type = [t] := by rw [htypes, hone]
    rcases hK : declaredKinds input with _ | ⟨k, _ | ⟨y, ys⟩⟩
    · have h2 : ca.filterMap MetaAttrs.get_event_kind = [] := by rw [hkinds, hK]
      obtain ⟨o, ho⟩ := @expandRest_ok_build input ca t none hfields
        (fun k0 hk0 => by cases hk0)
      have heq : expand_event_content input = expandRest input ca t none := by
        unfold expand_event_content
        rw [hca]
        dsimp only
        rw [h1]
        dsimp only
        rw [h2]
      rw [heq, ho]
      rfl
    · have h2 : ca.filterMap MetaAttrs.get_event_kind = [k] := by rw [hkinds, hK]
      obtain ⟨o, ho⟩ := @expandRest_ok_build input ca t (some k) hfields
        (fun k0 hk0 => mem_declaredKinds_not_bad (by
          rw [hK]
          have hkk : k = k0 := by
            injection hk0 with h'
          rw [← hkk]
          exact List.mem_cons_self _ _))
      have heq : expand_event_content input = expandRest input ca t (some k) := by
        unfold expand_event_content
        rw [hca]
        dsimp only
        rw [h1]
        dsimp only
        rw [h2]
      rw [heq, ho]
      rfl
    · rw [hK] at hklen
      simp at hklen

/-- Witness for C7 (amended): the three error cases and the success case at
concrete schemas. -/
theorem schema_attr_count_validation_witness :
    expand_event_content inC7zero = .err ("no event type attribute found, add `#[ruma_event(type = \"any.room.event\", kind = Kind)]` below the event content derive") ∧
    expand_event_content inC7 = .err ("multiple event type attribute found, there can only be one") ∧
    expand_event_content inC7kinds = .err ("multiple event kind attribute found, there can only be one") ∧
    (expand_event_content inW2).isOk = true := by
  have h0 := schema_attr_count_validation inC7zero [[.Kind .Message]] rfl
  have h1 := schema_attr_count_validation inC7 [[.Type' ("m.a")], [.Type' ("m.b")]] rfl
  have h2 := schema_attr_count_validation inC7kinds
    [[.Type' ("m.a"), .Kind .Message], [.Kind .State]] rfl
  have h3 := schema_attr_count_validation inW2
    [[.Type' ("m.key.verification.done"), .Kind .Message]] rfl
  refine ⟨h0.1 rfl, h1.2.1 (by decide), h2.2.2.1 ("m.a") rfl (by decide), ?_⟩
  refine h3.2.2.2 ("m.key.verification.done") rfl (by decide) ?_
  intro fields hf
  injection hf with hf
  subst hf
  rfl

end Ruma
